import Mathlib

/-!
Verification development for the ecrnow-script repository.

The JavaScript sources are shallowly embedded as pure Lean functions:
  * FHIR resources and bundles are records carrying exactly the fields the
    scripts inspect (`resourceType`, `id`, `subject.reference`,
    `encounter.reference`, bundle `entry` and `link`).
  * The sequential HTTP calls of the resolution functions are modelled by
    oracle functions (url or id to optional response); `none` means the
    request failed (axios threw).  Pagination loops, which in JS run until
    the server stops supplying a `next` link, take a fuel argument; theorems
    are stated for runs with sufficient fuel.
  * JS `Map` objects (insertion-ordered, key-overwriting) are embedded as
    association lists with explicit `set` / `hasKey` / `values` operations.
  * JS truthiness tests on possibly-absent strings are embedded by `truthy`
    on `Option String`.
-/

/-- Embedded FHIR resource: the fields of a resource JSON object that the
scripts read.  `id` is `none` for a resource without an `id` field;
`subjectRef` embeds `subject?.reference`; `encounterRef` embeds
`encounter?.reference`. -/
structure Resource where
  resourceType : String := ""
  id : Option String := none
  subjectRef : Option String := none
  encounterRef : Option String := none
deriving Repr, DecidableEq

/-- Embedded bundle link object (`{relation, url}`); `url` is `none` when the
link has no url field. -/
structure Link where
  relation : String := ""
  url : Option String := none
deriving Repr, DecidableEq

/-- Embedded FHIR bundle: `entry` holds each entry's `resource` (entries are
modelled with their resource present, as in every search response the
scripts process), `link` the pagination links.  A missing `entry`/`link`
array (`b.entry || []` in JS) is modelled by the empty list. -/
structure Bundle where
  resourceType : String := "Bundle"
  entry : List Resource := []
  link : List Link := []
deriving Repr, DecidableEq

/-- JS truthiness of a possibly-absent string: `undefined` and `""` are
falsy, everything else truthy. -/
def truthy : Option String → Bool
  | none => false
  | some s => s ≠ ""

/-- Whitespace recognised by the embedded `trim()`. -/
def isJsSpace (c : Char) : Bool :=
  c = ' ' ∨ c = '\t' ∨ c = '\n' ∨ c = '\r'

/-- Embeds `s.trim()`.  Implemented on the character list so that concrete
runs reduce inside the kernel. -/
def jsTrim (s : String) : String :=
  String.mk (((s.data.dropWhile isJsSpace).reverse.dropWhile isJsSpace).reverse)

/-- Embeds `s.startsWith(pre)`, implemented on the character lists. -/
def jsStartsWith (s pre : String) : Bool :=
  List.isPrefixOf pre.data s.data

/-- Worker of the embedded `split`: cut the remaining characters at each
separator, accumulating the current piece reversed. -/
def splitCharAux (sep : Char) : List Char → List Char → List String
  | [], acc => [String.mk acc.reverse]
  | c :: cs, acc =>
    if c = sep then String.mk acc.reverse :: splitCharAux sep cs []
    else splitCharAux sep cs (c :: acc)

/-- Embeds `s.split(sep)` for the single-character separators the scripts
use (`/`, `,`, `:`). -/
def jsSplit (s : String) (sep : Char) : List String :=
  splitCharAux sep s.data []

/-- Embeds `(b.link || []).find(l => l.relation === 'next')?.url || null`:
the url of the first link with relation `next`, with a missing or empty url
collapsing to `none`. -/
def nextUrl (b : Bundle) : Option String :=
  match b.link.find? (fun l => l.relation == "next") with
  | some l =>
    match l.url with
    | some u => if u = "" then none else some u
    | none => none
  | none => none

/-- Embedded JS `Map` from encounter id to resource: an insertion-ordered
association list. -/
abbrev EncMap := List (String × Resource)

/-- Embeds `map.has(k)`. -/
def EncMap.hasKey (m : EncMap) (k : String) : Bool :=
  m.any (fun p => p.1 == k)

/-- Embeds `map.set(k, v)`: overwrite in place when the key exists, append
otherwise (JS `Map` insertion-order semantics). -/
def EncMap.set (m : EncMap) (k : String) (v : Resource) : EncMap :=
  if m.hasKey k then
    m.map (fun p => if p.1 == k then (k, v) else p)
  else m ++ [(k, v)]

/-- Embeds `Array.from(map.values())`. -/
def EncMap.values (m : EncMap) : List Resource :=
  m.map Prod.snd

/-- Embeds `map.size === 0`. -/
def EncMap.size0 (m : EncMap) : Bool :=
  m matches []

/-- Keys of the embedded map, in insertion order. -/
def EncMap.keys (m : EncMap) : List String :=
  m.map Prod.fst

/-- Embeds the per-entry harvesting step shared by all three resolution
strategies: when the entry's resource is an Encounter with a truthy id,
`encounters.set(res.id, res)`. -/
def harvestStep (m : EncMap) (res : Resource) : EncMap :=
  if res.resourceType = "Encounter" ∧ truthy res.id then
    m.set (res.id.getD "") res
  else m

/-- Embeds `harvestEncounters` / the per-page `forEach` harvesting loop:
apply the harvesting step to every entry of a bundle. -/
def harvestEncounters (m : EncMap) (b : Bundle) : EncMap :=
  b.entry.foldl harvestStep m

/-- The id the harvesting step would insert for one entry's resource, if
any. -/
def encIdOf (res : Resource) : Option String :=
  if res.resourceType = "Encounter" ∧ truthy res.id then some (res.id.getD "")
  else none

/-- Ids of the Encounter resources (with truthy id) carried by a bundle's
entries: the ids the harvesting step inserts. -/
def bundleEncIds (b : Bundle) : List String :=
  b.entry.filterMap encIdOf

/-- Serialises a parameter list into a query/body string.  The
percent-encoding performed by `URLSearchParams.toString()` is elided: the
encoded string only serves as an uninterpreted key to the request oracles. -/
def buildQueryString (ps : List (String × String)) : String :=
  String.intercalate "&" (ps.map (fun p => p.1 ++ "=" ++ p.2))

/-- Embeds `if (v) params.append(name, pre + v)` for an optional string
setting: emits the parameter exactly when the value is truthy. -/
def optQueryParam (name pre : String) (v : Option String) : List (String × String) :=
  match v with
  | some s => if s = "" then [] else [(name, pre ++ s)]
  | none => []

/-- Embeds `buildCodeParam` (identical in both query modules): split the CSV
on commas, trim each part, drop empties, re-join. -/
def buildCodeParam (codesCsv : String) : String :=
  String.intercalate "," (((jsSplit codesCsv ',').map jsTrim).filter (fun s => s ≠ ""))

/-- Outcome classifier for an embedded run: `http` embeds an uncaught axios
rejection, `fuel` marks fuel exhaustion of the embedding (the JS loop would
still be following `next` links). -/
inductive RunErr where
  | http
  | fuel
deriving Repr, DecidableEq

/-- Embeds the shared pagination loop `while (url) { const b = await
axios.get(url); <process b>; url = next(b); }`.  `process` is the per-page
processing (harvesting, or fallback reference processing), `σ` the
accumulated state; the returned list records the urls requested, in order. -/
def pageLoopGen {σ : Type} (server : String → Option Bundle) (process : σ → Bundle → σ) :
    Nat → Option String → σ → List String → Except RunErr (σ × List String)
  | _, none, s, reqs => .ok (s, reqs)
  | 0, some _, _, _ => .error .fuel
  | fuel + 1, some url, s, reqs =>
    match server url with
    | none => .error .http
    | some b => pageLoopGen server process fuel (nextUrl b) (process s b) (reqs ++ [url])

/-- A finite chain of pages served by `server`: starting from the optional
url `st`, each listed url is served, yields the corresponding bundle, and
each bundle's `next` link leads to the next listed url, the last bundle
having none. -/
inductive Chain (server : String → Option Bundle) : Option String → List String → List Bundle → Prop where
  | nil : Chain server none [] []
  | cons {u : String} {b : Bundle} {us : List String} {bs : List Bundle} :
      server u = some b → Chain server (nextUrl b) us bs →
      Chain server (some u) (u :: us) (b :: bs)

/-- Options of `fetchEncountersByDateRange` (utils/fhirQueries.js), with the
source's defaults. -/
structure DateRangeOpts where
  fhirBase : String
  start : Option String := none
  endDate : Option String := none
  dateField : String := "date"
  patientId : Option String := none
  status : Option String := none
  count : Nat := 100
deriving Repr, DecidableEq

/-- Embeds the query-parameter construction of `fetchEncountersByDateRange`:
date bounds, optional patient (normalised to a `Patient/` reference),
optional status, page size. -/
def dateRangeQuery (o : DateRangeOpts) : List (String × String) :=
  optQueryParam o.dateField "ge" o.start ++
  optQueryParam o.dateField "le" o.endDate ++
  (match o.patientId with
   | some p =>
     if p = "" then []
     else [("patient", if jsStartsWith p "Patient/" then p else "Patient/" ++ p)]
   | none => []) ++
  (match o.status with
   | some s => if s = "" then [] else [("status", s)]
   | none => []) ++
  [("_count", toString o.count)]

/-- Initial search url of `fetchEncountersByDateRange`. -/
def dateRangeUrl (o : DateRangeOpts) : String :=
  o.fhirBase ++ "/Encounter?" ++ buildQueryString (dateRangeQuery o)

/-- Embeds `fetchEncountersByDateRange` (utils/fhirQueries.js): paginate the
direct Encounter search, harvesting each page, and return the map's values
together with the list of page urls requested. -/
def fetchEncountersByDateRange (server : String → Option Bundle) (fuel : Nat)
    (o : DateRangeOpts) : Except RunErr (List Resource × List String) :=
  match pageLoopGen server harvestEncounters fuel (some (dateRangeUrl o)) ([] : EncMap) [] with
  | .ok (m, reqs) => .ok (m.values, reqs)
  | .error e => .error e

/-- Options of `fetchEncountersByConditionCodes` (utils/fhirQueries.js).
`dateField` and `codesCsv` have no defaults in the source's destructuring;
the orchestrator supplies them. -/
structure CondOpts where
  fhirBase : String
  start : Option String := none
  endDate : Option String := none
  dateField : String := ""
  codesCsv : String := ""
deriving Repr, DecidableEq

/-- Embeds the shared query parameters of `fetchEncountersByConditionCodes`
(used for both the Encounter and the fallback Condition search): optional
code parameter, date bounds, `_count=100`. -/
def condQuery (o : CondOpts) : List (String × String) :=
  (let cp := buildCodeParam o.codesCsv
   if cp = "" then [] else [("code", cp)]) ++
  optQueryParam o.dateField "ge" o.start ++
  optQueryParam o.dateField "le" o.endDate ++
  [("_count", "100")]

/-- Embeds the fallback body of `fetchEncountersByConditionCodes` pass 2: for
each Condition entry whose `encounter.reference` starts with `Encounter/`,
take the path segment after the first slash as id and, when the map lacks
it, `await axios.get(fhirBase/Encounter/id)` with NO try/catch: a failed
individual fetch rejects the whole resolution (`.error .http`).  On success
the raw response body is stored under the reference id without any
resourceType/id check (`encs.set(id, er.data)`).  The returned string list
records the ids GET-fetched, in order. -/
def condEntriesLoop (getEnc : String → Option Resource) :
    List Resource → EncMap → List String → Except RunErr (EncMap × List String)
  | [], m, tr => .ok (m, tr)
  | c :: cs, m, tr =>
    if c.resourceType = "Condition" then
      match c.encounterRef with
      | some ref =>
        if jsStartsWith ref "Encounter/" then
          let id := ((jsSplit ref '/').getD 1 "")
          if m.hasKey id then condEntriesLoop getEnc cs m tr
          else
            match getEnc id with
            | none => .error .http
            | some er => condEntriesLoop getEnc cs (m.set id er) (tr ++ [id])
        else condEntriesLoop getEnc cs m tr
      | none => condEntriesLoop getEnc cs m tr
    else condEntriesLoop getEnc cs m tr

/-- Pagination loop of `fetchEncountersByConditionCodes` pass 2: like
`pageLoopGen` but the per-page processing (`condEntriesLoop`) may itself
fail, aborting the loop. -/
def condPageLoop (server : String → Option Bundle) (getEnc : String → Option Resource) :
    Nat → Option String → EncMap → List String → Except RunErr (EncMap × List String)
  | _, none, m, tr => .ok (m, tr)
  | 0, some _, _, _ => .error .fuel
  | fuel + 1, some url, m, tr =>
    match server url with
    | none => .error .http
    | some b =>
      match condEntriesLoop getEnc b.entry m tr with
      | .error e => .error e
      | .ok (m2, tr2) => condPageLoop server getEnc fuel (nextUrl b) m2 tr2

/-- Embeds `fetchEncountersByConditionCodes` (utils/fhirQueries.js): pass 1
paginates a direct Encounter search (the `_include` line is commented out in
the source) harvesting Encounters; if the map stayed empty, pass 2 paginates
the Condition search, fetching each referenced Encounter individually with
no error handling.  Returns the resolved resources and the ids
GET-fetched individually. -/
def fetchEncountersByConditionCodes (server : String → Option Bundle)
    (getEnc : String → Option Resource) (fuel : Nat) (o : CondOpts) :
    Except RunErr (List Resource × List String) :=
  let params := condQuery o
  let url := o.fhirBase ++ "/Encounter?" ++ buildQueryString params
  match pageLoopGen server harvestEncounters fuel (some url) ([] : EncMap) [] with
  | .error e => .error e
  | .ok (m, _) =>
    if m.size0 then
      let url2 := o.fhirBase ++ "/Condition?" ++ buildQueryString params
      match condPageLoop server getEnc fuel (some url2) ([] : EncMap) [] with
      | .error e => .error e
      | .ok (m2, tr) => .ok (m2.values, tr)
    else .ok (m.values, [])

/-- Options of `fetchEncountersByConditionCodesPost` (utils/fhirQueriesPost.js),
with the source's defaults. -/
structure PostOpts where
  fhirBase : String
  start : Option String := none
  endDate : Option String := none
  dateField : String := ""
  codesCsv : String := ""
  includePatient : Bool := true
  count : Nat := 100
deriving Repr, DecidableEq

/-- Embeds the initial POST body of `fetchEncountersByConditionCodesPost`:
code parameter, date bounds, `_include=Condition:encounter`, optionally
`_include=Condition:subject`, `_count`. -/
def postForm (o : PostOpts) : List (String × String) :=
  (let cp := buildCodeParam o.codesCsv
   if cp = "" then [] else [("code", cp)]) ++
  optQueryParam o.dateField "ge" o.start ++
  optQueryParam o.dateField "le" o.endDate ++
  [("_include", "Condition:encounter")] ++
  (if o.includePatient then [("_include", "Condition:subject")] else []) ++
  [("_count", toString o.count)]

/-- Embeds the fallback POST body (same filters, no `_include` directives). -/
def fallbackForm (o : PostOpts) : List (String × String) :=
  (let cp := buildCodeParam o.codesCsv
   if cp = "" then [] else [("code", cp)]) ++
  optQueryParam o.dateField "ge" o.start ++
  optQueryParam o.dateField "le" o.endDate ++
  [("_count", toString o.count)]

/-- Embeds the reference extraction of the logging/direct-fetch block of
`fetchEncountersByConditionCodesPost`: entries whose resource is a
Condition, mapped to `encounter?.reference`, keeping the string references
that start with `Encounter/`. -/
def conditionEncounterRefs (b : Bundle) : List String :=
  ((b.entry.filter (fun r => r.resourceType == "Condition")).filterMap Resource.encounterRef).filter
    (fun ref => jsStartsWith ref "Encounter/")

/-- Embeds the direct-fetch loop of `fetchEncountersByConditionCodesPost`
(lines 90-110): for each extracted reference take the segment after the
slash, skip when empty or already in the map, otherwise GET the Encounter;
a failed GET is caught and logged, a non-Encounter or id-less body is
logged and skipped, a good Encounter is stored under its own id.  The
returned string list records the ids GET-fetched, in order. -/
def directFetchRefs (getEnc : String → Option Resource) :
    List String → EncMap → List String → EncMap × List String
  | [], m, tr => (m, tr)
  | ref :: refs, m, tr =>
    let encId := ((jsSplit ref '/').getD 1 "")
    if encId = "" then directFetchRefs getEnc refs m tr
    else if m.hasKey encId then directFetchRefs getEnc refs m tr
    else
      match getEnc encId with
      | none => directFetchRefs getEnc refs m (tr ++ [encId])
      | some enc =>
        if enc.resourceType = "Encounter" ∧ truthy enc.id then
          directFetchRefs getEnc refs (m.set (enc.id.getD "") enc) (tr ++ [encId])
        else directFetchRefs getEnc refs m (tr ++ [encId])

/-- Embeds `fetchEncounterByRef` (utils/fhirQueriesPost.js lines 148-158):
ignore references not of the form `Encounter/...`, skip empty or
already-present ids, GET the rest with `.catch(() => null)` — a failure is
silently skipped — and store a well-formed Encounter under its own id. -/
def fetchEncounterByRef (getEnc : String → Option Resource)
    (acc : EncMap × List String) (ref : Option String) : EncMap × List String :=
  match ref with
  | none => acc
  | some r =>
    if jsStartsWith r "Encounter/" then
      let id := ((jsSplit r '/').getD 1 "")
      if id = "" ∨ acc.1.hasKey id then acc
      else
        match getEnc id with
        | none => (acc.1, acc.2 ++ [id])
        | some enc =>
          if enc.resourceType = "Encounter" ∧ truthy enc.id then
            (acc.1.set (enc.id.getD "") enc, acc.2 ++ [id])
          else (acc.1, acc.2 ++ [id])
    else acc

/-- Embeds `processBundleConditions`: run `fetchEncounterByRef` over the
encounter reference of every Condition entry of a fallback page. -/
def processBundleConditions (getEnc : String → Option Resource)
    (acc : EncMap × List String) (b : Bundle) : EncMap × List String :=
  b.entry.foldl
    (fun acc r =>
      if r.resourceType = "Condition" then fetchEncounterByRef getEnc acc r.encounterRef
      else acc)
    acc

/-- Embeds the guarded logging/direct-fetch block of
`fetchEncountersByConditionCodesPost` (lines 73-113): run the direct-fetch
loop over the initial bundle's Condition references when the response is a
Bundle, do nothing otherwise. -/
def postFirstPass (getEnc : String → Option Resource) (bundle : Bundle) :
    EncMap × List String :=
  if bundle.resourceType = "Bundle" then
    directFetchRefs getEnc (conditionEncounterRefs bundle) [] []
  else ([], [])

/-- Embeds `fetchEncountersByConditionCodesPost` (utils/fhirQueriesPost.js).
`post` answers `POST {fhirBase}/Condition/_search` keyed by the encoded
body, `get` answers pagination GETs keyed by url, `getEnc` answers
`GET {fhirBase}/Encounter/{id}` keyed by the id (`none` embeds a rejected
request).  Faithful to the source's order: the logging/direct-fetch block
runs on the initial bundle BEFORE `harvestEncounters` is first applied;
then the initial bundle is harvested, pagination is followed, and only if
the map is still empty does the include-free fallback search run.  Returns
the resolved resources and the ids GET-fetched individually (direct-fetch
block first, then fallback fetches). -/
def fetchEncountersByConditionCodesPost (post : String → Option Bundle)
    (get : String → Option Bundle) (getEnc : String → Option Resource)
    (fuel : Nat) (o : PostOpts) : Except RunErr (List Resource × List String) :=
  let body := buildQueryString (postForm o)
  match post body with
  | none => .error .http
  | some bundle =>
    let firstPass := postFirstPass getEnc bundle
    let m2 := harvestEncounters firstPass.1 bundle
    match pageLoopGen get harvestEncounters fuel (nextUrl bundle) m2 [] with
    | .error e => .error e
    | .ok (m3, _) =>
      if m3.size0 then
        let fbBody := buildQueryString (fallbackForm o)
        match post fbBody with
        | none => .error .http
        | some fb =>
          let acc := processBundleConditions getEnc (m3, firstPass.2) fb
          match pageLoopGen get (processBundleConditions getEnc) fuel (nextUrl fb) acc [] with
          | .error e => .error e
          | .ok (accF, _) => .ok (accF.1.values, accF.2)
      else .ok (m3.values, firstPass.2)

/-- Embedded configuration object `CFG` of scripts/ecr_flow_node.js.  String
settings that may be absent from the environment are `Option String`
(`none` embeds `undefined`); `AUTH_MODE`, `SCOPE` and `REQUIRE_AUD` carry
the source's defaulting already applied, as in the `CFG` literal. -/
structure Cfg where
  AUTH_MODE : String := "SOF_BACKEND"
  CLIENT_ID : Option String := none
  CLIENT_SECRET : Option String := none
  TOKEN_URL : Option String := none
  SCOPE : String := "system/*.read"
  KID : Option String := none
  PRIVATE_KEY_PATH : Option String := none
  REQUIRE_AUD : Bool := true
  AUD : Option String := none
  FHIR_BASE : Option String := none
deriving Repr, DecidableEq

/-- Embeds the missing-field test of `need`:
`!obj[k] || String(obj[k]).trim() === ''` — absent, empty or
whitespace-only values count as missing. -/
def missingOf : Option String → Bool
  | none => true
  | some s => jsTrim s = ""

/-- Embeds the filter inside `need`: the names, in order, of the fields of
the given (name, value) list whose value is missing. -/
def needCheck (fields : List (String × Option String)) : List String :=
  (fields.filter (fun p => missingOf p.2)).map Prod.fst

/-- Errors of the embedded `getFhirToken` request construction:
`missingEnv miss` embeds `throw new Error('Missing env: ' + miss.join(', '))`
from `need`, `unsupportedMode` the default branch of the mode switch. -/
inductive TokenErr where
  | missingEnv : List String → TokenErr
  | unsupportedMode : String → TokenErr
deriving Repr, DecidableEq

/-- The token request `getFhirToken` is about to POST: the endpoint url, the
optional Basic authorization header (carried un-encoded as the
`clientId:clientSecret` pair whose base64 rendering the source sends), and
the form fields in append order. -/
structure TokenRequest where
  url : String
  basicAuth : Option (String × String) := none
  form : List (String × String) := []
deriving Repr, DecidableEq

/-- Embeds `const aud = CFG.AUD || CFG.TOKEN_URL`. -/
def audValue (cfg : Cfg) : String :=
  match cfg.AUD with
  | some a => if a = "" then cfg.TOKEN_URL.getD "" else a
  | none => cfg.TOKEN_URL.getD ""

/-- The base fields `getFhirToken` validates first:
`need(CFG, ['TOKEN_URL', 'CLIENT_ID', 'FHIR_BASE'])`. -/
def baseFields (cfg : Cfg) : List (String × Option String) :=
  [("TOKEN_URL", cfg.TOKEN_URL), ("CLIENT_ID", cfg.CLIENT_ID), ("FHIR_BASE", cfg.FHIR_BASE)]

/-- The mode-specific fields `getFhirToken` validates inside the switch:
key id and private-key path for the client-assertion modes, the client
secret for both client-secret modes. -/
def modeFields (cfg : Cfg) : List (String × Option String) :=
  if cfg.AUTH_MODE = "SOF_BACKEND" ∨ cfg.AUTH_MODE = "PRIVATE_KEY_JWT" then
    [("KID", cfg.KID), ("PRIVATE_KEY_PATH", cfg.PRIVATE_KEY_PATH)]
  else [("CLIENT_SECRET", cfg.CLIENT_SECRET)]

/-- The four values of the mode switch of `getFhirToken`. -/
def validModes : List String :=
  ["SOF_BACKEND", "PRIVATE_KEY_JWT", "CLIENT_SECRET_BASIC", "CLIENT_SECRET_POST"]

/-- Embeds the request-construction prefix of `getFhirToken`
(scripts/ecr_flow_node.js lines 60-107): validate the base fields, build the
shared form (`grant_type=client_credentials`, scope when truthy), compute
the audience, then branch on the mode, validating its extra fields and
appending its fields — returning the request that would be POSTed, or the
error thrown before any network call.  `clientAssertion` stands for the
string produced by `signClientAssertion` in the client-assertion modes. -/
def getFhirTokenRequest (cfg : Cfg) (clientAssertion : String) : Except TokenErr TokenRequest :=
  let missBase := needCheck (baseFields cfg)
  if missBase ≠ [] then .error (.missingEnv missBase)
  else
    let mode := cfg.AUTH_MODE
    let form0 :=
      [("grant_type", "client_credentials")] ++
      (if cfg.SCOPE = "" then [] else [("scope", cfg.SCOPE)])
    let aud := audValue cfg
    let addAud := cfg.REQUIRE_AUD ∧ aud ≠ ""
    if mode = "SOF_BACKEND" ∨ mode = "PRIVATE_KEY_JWT" then
      let missMode := needCheck [("KID", cfg.KID), ("PRIVATE_KEY_PATH", cfg.PRIVATE_KEY_PATH)]
      if missMode ≠ [] then .error (.missingEnv missMode)
      else
        .ok { url := cfg.TOKEN_URL.getD ""
              basicAuth := none
              form := form0 ++
                [("client_id", cfg.CLIENT_ID.getD ""),
                 ("client_assertion_type", "urn:ietf:params:oauth:client-assertion-type:jwt-bearer"),
                 ("client_assertion", clientAssertion)] ++
                (if addAud then [("aud", aud)] else []) }
    else if mode = "CLIENT_SECRET_BASIC" then
      let missMode := needCheck [("CLIENT_SECRET", cfg.CLIENT_SECRET)]
      if missMode ≠ [] then .error (.missingEnv missMode)
      else
        .ok { url := cfg.TOKEN_URL.getD ""
              basicAuth := some (cfg.CLIENT_ID.getD "", cfg.CLIENT_SECRET.getD "")
              form := form0 ++ (if addAud then [("aud", aud)] else []) }
    else if mode = "CLIENT_SECRET_POST" then
      let missMode := needCheck [("CLIENT_SECRET", cfg.CLIENT_SECRET)]
      if missMode ≠ [] then .error (.missingEnv missMode)
      else
        .ok { url := cfg.TOKEN_URL.getD ""
              basicAuth := none
              form := form0 ++
                [("client_id", cfg.CLIENT_ID.getD ""),
                 ("client_secret", cfg.CLIENT_SECRET.getD "")] ++
                (if addAud then [("aud", aud)] else []) }
    else .error (.unsupportedMode mode)

/-- Protected header of the embedded client assertion. -/
structure JwtHeader where
  alg : String
  kid : String
deriving Repr, DecidableEq

/-- Payload of the embedded client assertion. -/
structure JwtPayload where
  iss : String
  sub : String
  aud : String
  jti : String
  iat : Nat
  exp : Nat
deriving Repr, DecidableEq

/-- The embedded signed token: the header and payload `signClientAssertion`
sets.  The PKCS8 key import and the RS256 signature are performed by the
jose library and are not modelled; the claims are about the constructed
header and payload. -/
structure Jwt where
  header : JwtHeader
  payload : JwtPayload
deriving Repr, DecidableEq

/-- Modelled from the spec: `uuidv4()` of the uuid library, used for `jti`,
is an ambient fresh-identifier source ("a freshly generated unique
identifier").  It is embedded as an injective function of a call counter
threaded through consecutive calls. -/
def uuidv4 (callIdx : Nat) : String :=
  String.mk (List.replicate callIdx 'u') ++ "-uuid"

/-- Embeds `signClientAssertion` (utils/clientAssertion.js): header
`{alg: 'RS256', kid}`, payload `iss = sub = clientId`, the given audience,
a fresh `jti`, `iat = now`, `exp = now + 300`.  `now` embeds
`Math.floor(Date.now() / 1000)` at call time; `uuidState` is the uuid
generator state, returned advanced. -/
def signClientAssertion (clientId aud kid : String) (now : Nat) (uuidState : Nat) :
    Jwt × Nat :=
  ({ header := { alg := "RS256", kid := kid }
     payload :=
      { iss := clientId, sub := clientId, aud := aud
        jti := uuidv4 uuidState, iat := now, exp := now + 300 } },
   uuidState + 1)

/-- One `parameter` element of the status `Parameters` resource. -/
structure ParamField where
  name : String
  valueReference : Option String := none
  valueCanonical : Option String := none
  valueCode : Option String := none
  valueUnsignedInt : Option Nat := none
deriving Repr, DecidableEq

/-- Resource carried by an entry of the notification bundle: the status
`Parameters` resource (with its generated id) or the Encounter itself. -/
inductive EntryResource where
  | parameters (id : String) (parameter : List ParamField)
  | encounter (enc : Resource)
deriving Repr, DecidableEq

/-- One entry of the embedded notification bundle. -/
structure NotifEntry where
  fullUrl : String
  resource : EntryResource
deriving Repr, DecidableEq

/-- The embedded notification bundle (the fields of the object literal that
`buildNotificationBundle` returns that the claims are about, plus the
constant id and profile-bearing meta collapsed to the fields used). -/
structure NotifBundle where
  resourceType : String
  id : String
  type : String
  timestamp : String
  entry : List NotifEntry
deriving Repr, DecidableEq

/-- Options of `buildNotificationBundle` with the source's defaults. -/
structure BundleOptions where
  subscriptionUrl : String := "http://ecr.drajer.com/secure/fhir-r4/fhir/Subscription/encounter-end"
  topicCanonical : String := "http://hl7.org/fhir/us/medmorph/SubscriptionTopic/encounter-end"
  eventsSinceStart : Nat := 1
  eventsInNotification : Nat := 1
deriving Repr, DecidableEq

/-- Embeds the second entry's `fullUrl` computation of
`buildNotificationBundle`: `encounter.id?.startsWith('Encounter/')
? encounter.id : 'Encounter/' + (encounter.id || 'unknown')`. -/
def encounterFullUrl (enc : Resource) : String :=
  match enc.id with
  | some i =>
    if jsStartsWith i "Encounter/" then i
    else "Encounter/" ++ (if i = "" then "unknown" else i)
  | none => "Encounter/unknown"

/-- Embeds `buildNotificationBundle` (utils/submitEncounter.js): a
`history`-type Bundle whose first entry is the subscription-status
`Parameters` resource (addressed by a fresh `urn:uuid:` url, its id the
uuid tail of that urn) and whose second entry is the Encounter addressed by
`encounterFullUrl`.  `nowIso` embeds `new Date().toISOString()` and `u` the
fresh uuid of `cryptoRandomUuid()` at call time. -/
def buildNotificationBundle (encounter : Resource) (opts : BundleOptions)
    (nowIso : String) (u : String) : NotifBundle :=
  let paramsUrn := "urn:uuid:" ++ u
  { resourceType := "Bundle"
    id := "notification-full-resource"
    type := "history"
    timestamp := nowIso
    entry :=
      [{ fullUrl := paramsUrn
         resource := .parameters ((jsSplit paramsUrn ':').getLastD "")
          [{ name := "subscription", valueReference := some opts.subscriptionUrl },
           { name := "topic", valueCanonical := some opts.topicCanonical },
           { name := "type", valueCode := some "event-notification" },
           { name := "status", valueCode := some "active" },
           { name := "events-since-subscription-start", valueUnsignedInt := some opts.eventsSinceStart },
           { name := "events-in-notification", valueUnsignedInt := some opts.eventsInNotification }] },
       { fullUrl := encounterFullUrl encounter
         resource := .encounter encounter }] }

/-- Embeds `getPatientIdFromEncounter` (scripts/ecr_flow_node.js lines
53-57): default the missing reference to `''`, return the segment after the
first slash when the reference starts with `Patient/`, `null` otherwise. -/
def getPatientIdFromEncounter (enc : Resource) : Option String :=
  let ref := enc.subjectRef.getD ""
  if jsStartsWith ref "Patient/" then some ((jsSplit ref '/').getD 1 "")
  else none

/-- Action the launch-flow loop takes for one resolved encounter: the
launch POST (with the body's patient and encounter ids) or the logged skip. -/
inductive LaunchAction where
  | post (encounterId patientId : String)
  | skip (encounterId : Option String) (patientId : Option String)
deriving Repr, DecidableEq

/-- Whether a launch-flow action is the launch POST. -/
def LaunchAction.isPost : LaunchAction → Bool
  | .post _ _ => true
  | .skip _ _ => false

/-- Embeds one iteration of the per-encounter loop of `runLaunchFlow`
(scripts/ecr_flow_node.js lines 155-184): read the encounter id and the
patient id; when either is falsy, log the skip warning and `continue`,
otherwise POST the launch request.  A failing POST is caught and logged, so
each encounter yields exactly one action either way. -/
def launchAction (enc : Resource) : LaunchAction :=
  let encounterId := enc.id
  let patientId := getPatientIdFromEncounter enc
  if truthy encounterId ∧ truthy patientId then
    .post (encounterId.getD "") (patientId.getD "")
  else .skip encounterId patientId

/-- Embeds the whole per-encounter loop of `runLaunchFlow` over the resolved
encounter sequence. -/
def launchActions (encounters : List Resource) : List LaunchAction :=
  encounters.map launchAction

/-! Concrete fixtures: small servers, bundles and configurations used to
evaluate the embedded functions at specific inputs. -/

/-- Encounter resource with id `123`, as delivered by `_include`. -/
def encC1 : Resource := { resourceType := "Encounter", id := some "123" }

/-- Condition resource referencing `Encounter/123`. -/
def condC1 : Resource := { resourceType := "Condition", encounterRef := some "Encounter/123" }

/-- Search response carrying both the Condition and, via `_include`, the
very Encounter it references; no further pages. -/
def bundleC1 : Bundle := { entry := [condC1, encC1] }

/-- Options for the POST-strategy run on `bundleC1`. -/
def optsC1 : PostOpts := { fhirBase := "http://s1" }

/-- POST oracle answering every search with `bundleC1`. -/
def postSrvC1 : String → Option Bundle := fun _ => some bundleC1

/-- Pagination oracle for the `bundleC1` run (never consulted). -/
def pageSrvC1 : String → Option Bundle := fun _ => none

/-- Individual-Encounter oracle serving `Encounter/123`. -/
def getEncC1 : String → Option Resource := fun id => if id = "123" then some encC1 else none

/-- Options for the GET-strategy counterexample run. -/
def optsC2 : CondOpts := { fhirBase := "http://s2" }

/-- Encounter-search page with no Encounters (forcing the fallback pass). -/
def bundleEmptyC2 : Bundle := {}

/-- Condition-search page whose single Condition references `Encounter/1`. -/
def bundleCondC2 : Bundle :=
  { entry := [{ resourceType := "Condition", encounterRef := some "Encounter/1" }] }

/-- Page oracle of the GET-strategy counterexample: empty Encounter search,
one-Condition fallback search. -/
def serverC2 : String → Option Bundle := fun u =>
  if u = "http://s2/Encounter?_count=100" then some bundleEmptyC2
  else if u = "http://s2/Condition?_count=100" then some bundleCondC2
  else none

/-- Individual-Encounter oracle whose every request fails. -/
def encSrvC2 : String → Option Resource := fun _ => none

/-- Condition referencing `Encounter/7`, for the POST-strategy graceful-
degradation witness. -/
def condC2w : Resource := { resourceType := "Condition", encounterRef := some "Encounter/7" }

/-- Search response of the graceful-degradation witness: one Condition, no
included Encounters, no further pages. -/
def bundleC2w : Bundle := { entry := [condC2w] }

/-- Options for the graceful-degradation witness run. -/
def optsC2w : PostOpts := { fhirBase := "http://s2w" }

/-- POST oracle answering every search with `bundleC2w`. -/
def postSrvC2w : String → Option Bundle := fun _ => some bundleC2w

/-- Pagination oracle of the witness run (never consulted). -/
def pageSrvC2w : String → Option Bundle := fun _ => none

/-- Individual-Encounter oracle of the witness run: every fetch fails. -/
def encSrvC2w : String → Option Resource := fun _ => none

/-- Configuration missing both a base field (`TOKEN_URL`) and a
mode-specific field (`KID`) in a client-assertion mode. -/
def cfgC3bad : Cfg :=
  { AUTH_MODE := "SOF_BACKEND", CLIENT_ID := some "cid", FHIR_BASE := some "http://f",
    TOKEN_URL := none, KID := none, PRIVATE_KEY_PATH := some "key.pem" }

/-- Configuration with complete base fields but no client secret in
`CLIENT_SECRET_POST` mode. -/
def cfgC3w : Cfg :=
  { AUTH_MODE := "CLIENT_SECRET_POST", CLIENT_ID := some "cid", FHIR_BASE := some "http://f",
    TOKEN_URL := some "http://t", CLIENT_SECRET := none }

/-- Complete configuration for the `SOF_BACKEND` mode. -/
def cfgC5full : Cfg :=
  { AUTH_MODE := "SOF_BACKEND", CLIENT_ID := some "cid", TOKEN_URL := some "http://t",
    FHIR_BASE := some "http://f", KID := some "k1", PRIVATE_KEY_PATH := some "p.pem" }

/-- Options for the two-page pagination runs. -/
def optsC4 : DateRangeOpts := { fhirBase := "http://s4" }

/-- First page's Encounter. -/
def encC4a : Resource := { resourceType := "Encounter", id := some "a" }

/-- Second page's Encounter. -/
def encC4b : Resource := { resourceType := "Encounter", id := some "b" }

/-- First page: one Encounter and a `next` link. -/
def page1C4 : Bundle :=
  { entry := [encC4a], link := [{ relation := "next", url := some "http://s4/page2" }] }

/-- Second page: one Encounter, no `next` link. -/
def page2C4 : Bundle := { entry := [encC4b] }

/-- Page oracle serving the two-page chain. -/
def serverC4 : String → Option Bundle := fun u =>
  if u = dateRangeUrl optsC4 then some page1C4
  else if u = "http://s4/page2" then some page2C4
  else none

/-- Options for the date-range invariants witness run. -/
def optsC9 : DateRangeOpts := { fhirBase := "http://s9" }

/-- First witness page's Encounter. -/
def encC9a : Resource := { resourceType := "Encounter", id := some "x", subjectRef := some "Patient/px" }

/-- Second witness page's Encounter. -/
def encC9b : Resource := { resourceType := "Encounter", id := some "y" }

/-- First witness page: one Encounter, a non-Encounter entry, and a `next`
link. -/
def page1C9 : Bundle :=
  { entry := [encC9a, { resourceType := "OperationOutcome" }],
    link := [{ relation := "next", url := some "http://s9/page2" }] }

/-- Second witness page: a duplicate of the first Encounter and a fresh
one. -/
def page2C9 : Bundle := { entry := [encC9a, encC9b] }

/-- Page oracle of the invariants witness run. -/
def serverC9 : String → Option Bundle := fun u =>
  if u = dateRangeUrl optsC9 then some page1C9
  else if u = "http://s9/page2" then some page2C9
  else none

/-- Encounter with id `123` for the notification-bundle witness. -/
def encC7 : Resource := { resourceType := "Encounter", id := some "123" }

/-- Encounter whose patient reference has a further path segment. -/
def encC10slash : Resource := { resourceType := "Encounter", id := some "e", subjectRef := some "Patient/a/b" }

/-- Encounter whose patient reference is an absolute URL embedding a
patient id. -/
def encC10abs : Resource := { resourceType := "Encounter", id := some "e", subjectRef := some "http://ex/Patient/9" }

/-- Encounter whose patient reference is a urn embedding a patient id. -/
def encC10urn : Resource := { resourceType := "Encounter", id := some "e", subjectRef := some "urn:uuid:Patient/9" }

/-- Resolved encounter with both ids resolvable. -/
def encC8a : Resource := { resourceType := "Encounter", id := some "1", subjectRef := some "Patient/p1" }

/-- Resolved encounter with no subject reference. -/
def encC8b : Resource := { resourceType := "Encounter", id := some "2" }

/-! Helper lemmas about the embedded map, the harvesting step and the
pagination loop. -/

theorem Chain.length_eq {server : String → Option Bundle} {st : Option String}
    {urls : List String} {pages : List Bundle} (h : Chain server st urls pages) :
    urls.length = pages.length := by
  induction h with
  | nil => rfl
  | cons _ _ ih => simpa using ih

/-- With enough fuel, the pagination loop over a chain of pages requests
exactly the chain's urls and folds the processing step over its pages. -/
theorem pageLoopGen_chain {σ : Type} {server : String → Option Bundle}
    (process : σ → Bundle → σ) {st : Option String} {urls : List String}
    {pages : List Bundle} (h : Chain server st urls pages) :
    ∀ fuel s reqs, urls.length ≤ fuel →
      pageLoopGen server process fuel st s reqs = .ok (pages.foldl process s, reqs ++ urls) := by
  induction h with
  | nil => intro fuel s reqs _; cases fuel <;> simp [pageLoopGen]
  | @cons u b us bs hsrv _ ih =>
    intro fuel s reqs hle
    cases fuel with
    | zero => simp at hle
    | succ f =>
      have hle2 : us.length ≤ f := by simpa using hle
      simp only [pageLoopGen, hsrv]
      rw [ih f (process s b) (reqs ++ [u]) hle2]
      simp

/-- A state property preserved by the per-page processing is preserved by a
successful run of the pagination loop. -/
theorem pageLoopGen_preserve {σ : Type} {P : σ → Prop} {server : String → Option Bundle}
    {process : σ → Bundle → σ} (hstep : ∀ s b, P s → P (process s b)) :
    ∀ (fuel : Nat) (st : Option String) (s : σ) (reqs : List String) (s2 : σ)
      (reqs2 : List String),
      pageLoopGen server process fuel st s reqs = .ok (s2, reqs2) → P s → P s2 := by
  intro fuel
  induction fuel with
  | zero =>
    intro st s reqs s2 reqs2 hrun hs
    cases st with
    | none =>
      simp [pageLoopGen] at hrun
      exact hrun.1 ▸ hs
    | some u => simp [pageLoopGen] at hrun
  | succ f ih =>
    intro st s reqs s2 reqs2 hrun hs
    cases st with
    | none =>
      simp [pageLoopGen] at hrun
      exact hrun.1 ▸ hs
    | some u =>
      simp only [pageLoopGen] at hrun
      cases hsrv : server u with
      | none => rw [hsrv] at hrun; simp at hrun
      | some b =>
        rw [hsrv] at hrun
        exact ih _ _ _ _ _ hrun (hstep s b hs)

theorem EncMap.hasKey_iff {m : EncMap} {k : String} :
    m.hasKey k = true ↔ k ∈ m.keys := by
  simp only [EncMap.hasKey, EncMap.keys, List.any_eq_true, List.mem_map, beq_iff_eq]

theorem EncMap.keys_set {m : EncMap} {k : String} {v : Resource} :
    (m.set k v).keys = if m.hasKey k then m.keys else m.keys ++ [k] := by
  unfold EncMap.set
  split
  · simp only [EncMap.keys, List.map_map]
    apply List.map_congr_left
    intro p _
    by_cases h : p.1 = k
    · simp [h]
    · simp [h]
  · simp [EncMap.keys]

theorem EncMap.hasKey_set {m : EncMap} {k j : String} {v : Resource} :
    (m.set k v).hasKey j = true ↔ m.hasKey j = true ∨ j = k := by
  rw [EncMap.hasKey_iff, EncMap.hasKey_iff, EncMap.keys_set]
  split
  · rename_i h
    constructor
    · exact Or.inl
    · rintro (hj | rfl)
      · exact hj
      · exact EncMap.hasKey_iff.mp h
  · simp [or_comm]

/-- Well-formedness invariant of the encounter map maintained by the
harvesting step: keys are distinct and each stored resource is an Encounter
stored under its own non-empty id. -/
def EncMapWF (m : EncMap) : Prop :=
  m.keys.Nodup ∧ ∀ p ∈ m, p.2.resourceType = "Encounter" ∧ p.2.id = some p.1 ∧ p.1 ≠ ""

theorem EncMapWF.nil : EncMapWF ([] : EncMap) := by
  constructor
  · simp [EncMap.keys]
  · intro p hp; simp at hp

theorem EncMapWF.set {m : EncMap} {k : String} {v : Resource} (h : EncMapWF m)
    (hr : v.resourceType = "Encounter") (hid : v.id = some k) (hk : k ≠ "") :
    EncMapWF (m.set k v) := by
  obtain ⟨hnd, hall⟩ := h
  constructor
  · rw [EncMap.keys_set]
    split
    · exact hnd
    · rename_i hno
      simp only [List.nodup_append, List.nodup_cons, List.nodup_nil]
      refine ⟨hnd, by simp, ?_⟩
      intro a ha hb
      simp only [List.mem_singleton] at hb
      subst hb
      exact hno (by simpa [EncMap.hasKey_iff] using ha)
  · intro p hp
    unfold EncMap.set at hp
    split at hp
    · simp only [List.mem_map] at hp
      obtain ⟨q, hq, hqe⟩ := hp
      by_cases hqk : q.1 = k
      · simp [hqk] at hqe
        rw [← hqe]
        exact ⟨hr, hid, hk⟩
      · simp [hqk] at hqe
        rw [← hqe]
        exact hall q hq
    · simp only [List.mem_append, List.mem_singleton] at hp
      rcases hp with hp | hp
      · exact hall p hp
      · subst hp; exact ⟨hr, hid, hk⟩

theorem EncMapWF.hstep {m : EncMap} {r : Resource} (h : EncMapWF m) :
    EncMapWF (harvestStep m r) := by
  unfold harvestStep
  split
  · rename_i hc
    obtain ⟨hrt, hid⟩ := hc
    obtain ⟨s, hs, hne⟩ : ∃ s, r.id = some s ∧ s ≠ "" := by
      cases hri : r.id with
      | none => rw [hri] at hid; simp [truthy] at hid
      | some s =>
        rw [hri] at hid
        simp [truthy] at hid
        exact ⟨s, rfl, hid⟩
    have : r.id.getD "" = s := by simp [hs]
    rw [this]
    exact h.set hrt (by rw [hs]) hne
  · exact h

theorem EncMapWF.harvest {m : EncMap} {b : Bundle} (h : EncMapWF m) :
    EncMapWF (harvestEncounters m b) := by
  unfold harvestEncounters
  induction b.entry generalizing m with
  | nil => exact h
  | cons r l ih => exact ih h.hstep

theorem hasKey_harvestStep {m : EncMap} {r : Resource} {j : String} :
    (harvestStep m r).hasKey j = true ↔ m.hasKey j = true ∨ encIdOf r = some j := by
  unfold harvestStep encIdOf
  split
  · rw [EncMap.hasKey_set]
    constructor
    · rintro (hj | rfl)
      · exact Or.inl hj
      · exact Or.inr rfl
    · rintro (hj | hj)
      · exact Or.inl hj
      · simp at hj; exact Or.inr hj.symm
  · simp

theorem hasKey_foldl_harvestStep {l : List Resource} {m : EncMap} {j : String} :
    ((l.foldl harvestStep m).hasKey j = true) ↔
      m.hasKey j = true ∨ j ∈ l.filterMap encIdOf := by
  induction l generalizing m with
  | nil => simp
  | cons r l ih =>
    simp only [List.foldl_cons, List.filterMap_cons]
    rw [ih, hasKey_harvestStep]
    cases he : encIdOf r with
    | none => simp
    | some i =>
      simp only [he, Option.some_inj, List.mem_cons]
      constructor
      · rintro ((h | h) | h)
        · exact Or.inl h
        · exact Or.inr (Or.inl h.symm)
        · exact Or.inr (Or.inr h)
      · rintro (h | h | h)
        · exact Or.inl (Or.inl h)
        · exact Or.inl (Or.inr h.symm)
        · exact Or.inr h

theorem hasKey_harvest {m : EncMap} {b : Bundle} {j : String} :
    (harvestEncounters m b).hasKey j = true ↔ m.hasKey j = true ∨ j ∈ bundleEncIds b := by
  unfold harvestEncounters bundleEncIds
  exact hasKey_foldl_harvestStep

theorem hasKey_foldl_pages {pages : List Bundle} {m : EncMap} {j : String} :
    ((pages.foldl harvestEncounters m).hasKey j = true) ↔
      m.hasKey j = true ∨ ∃ b ∈ pages, j ∈ bundleEncIds b := by
  induction pages generalizing m with
  | nil => simp
  | cons b pages ih =>
    simp only [List.foldl_cons]
    rw [ih, hasKey_harvest]
    simp [or_assoc]

theorem EncMapWF.values_prop {m : EncMap} (h : EncMapWF m) :
    ∀ r ∈ m.values, r.resourceType = "Encounter" ∧ truthy r.id = true := by
  intro r hr
  simp only [EncMap.values, List.mem_map] at hr
  obtain ⟨p, hp, hpe⟩ := hr
  obtain ⟨h1, h2, h3⟩ := h.2 p hp
  subst hpe
  exact ⟨h1, by simp [h2, truthy, h3]⟩

theorem EncMapWF.values_ids_nodup {m : EncMap} (h : EncMapWF m) :
    (m.values.map Resource.id).Nodup := by
  have he : m.values.map Resource.id = m.keys.map some := by
    simp only [EncMap.values, EncMap.keys, List.map_map]
    apply List.map_congr_left
    intro p hp
    exact (h.2 p hp).2.1
  rw [he]
  exact h.1.map (Option.some_injective String)

theorem EncMapWF.values_any_id {m : EncMap} (h : EncMapWF m) (j : String) :
    (m.values.any (fun r => r.id == some j)) = m.hasKey j := by
  induction m with
  | nil => rfl
  | cons p t ih =>
    have ht : EncMapWF t := by
      refine ⟨?_, fun q hq => h.2 q (List.mem_cons_of_mem p hq)⟩
      have hn := h.1
      simp only [EncMap.keys, List.map_cons, List.nodup_cons] at hn
      exact hn.2
    have hv : EncMap.values (p :: t) = p.2 :: EncMap.values t := rfl
    have hk : EncMap.hasKey (p :: t) j = ((p.1 == j) || EncMap.hasKey t j) := by
      simp [EncMap.hasKey, List.any_cons]
    rw [hv, hk]
    simp only [List.any_cons]
    rw [ih ht]
    have hpid : p.2.id = some p.1 := (h.2 p (List.mem_cons_self p t)).2.1
    rw [hpid]
    by_cases he : p.1 = j
    · simp [he]
    · have h1 : (some p.1 == some j) = false := by simp [he]
      have h2 : (p.1 == j) = false := by simp [he]
      rw [h1, h2]

theorem EncMapWF.foldl_pages {pages : List Bundle} {m : EncMap} (h : EncMapWF m) :
    EncMapWF (pages.foldl harvestEncounters m) := by
  induction pages generalizing m with
  | nil => exact h
  | cons b pages ih => exact ih h.harvest

theorem needCheck_nil_iff {fields : List (String × Option String)} :
    needCheck fields = [] ↔ ∀ p ∈ fields, missingOf p.2 = false := by
  simp [needCheck, List.map_eq_nil_iff, List.filter_eq_nil_iff]

theorem missingOf_false {v : Option String} (h : missingOf v = false) :
    ∃ s, v = some s ∧ s ≠ "" := by
  cases v with
  | none => simp [missingOf] at h
  | some s =>
    refine ⟨s, rfl, ?_⟩
    intro hs
    subst hs
    simp [missingOf] at h
    exact h rfl

theorem audValue_ne_of_token {cfg : Cfg} (h : missingOf cfg.TOKEN_URL = false) :
    audValue cfg ≠ "" := by
  obtain ⟨t, ht, htne⟩ := missingOf_false h
  unfold audValue
  cases ha : cfg.AUD with
  | none => simp [ht, htne]
  | some a =>
    by_cases hae : a = ""
    · simp [hae, ht, htne]
    · simp [hae]

theorem uuidv4_data (n : Nat) :
    (uuidv4 n).data = List.replicate n 'u' ++ "-uuid".data := rfl

theorem uuidv4_succ_ne (n : Nat) : uuidv4 n ≠ uuidv4 (n + 1) := by
  intro h
  have hd := congrArg String.data h
  rw [uuidv4_data, uuidv4_data] at hd
  have hl := congrArg List.length hd
  simp [List.length_append, List.length_replicate] at hl

theorem launchAction_isPost (enc : Resource) :
    (launchAction enc).isPost = (truthy enc.id && truthy (getPatientIdFromEncounter enc)) := by
  cases ha : truthy enc.id <;> cases hb : truthy (getPatientIdFromEncounter enc) <;>
    simp [launchAction, LaunchAction.isPost, ha, hb]

/-! Claim theorems. -/

/-- C6: every successful call of `signClientAssertion` produces a token with
protected header `{alg: RS256, kid}` and payload `iss = sub = clientId`,
`aud` the given audience, `iat` the current time, `exp - iat = 300`, and a
fresh `jti` that differs between two consecutive calls. -/
theorem c6_client_assertion (clientId aud kid : String) (now1 now2 st : Nat) :
    (signClientAssertion clientId aud kid now1 st).1.header = { alg := "RS256", kid := kid } ∧
    (signClientAssertion clientId aud kid now1 st).1.payload.iss = clientId ∧
    (signClientAssertion clientId aud kid now1 st).1.payload.sub = clientId ∧
    (signClientAssertion clientId aud kid now1 st).1.payload.aud = aud ∧
    (signClientAssertion clientId aud kid now1 st).1.payload.iat = now1 ∧
    (signClientAssertion clientId aud kid now1 st).1.payload.exp -
      (signClientAssertion clientId aud kid now1 st).1.payload.iat = 300 ∧
    (signClientAssertion clientId aud kid now1 st).1.payload.jti ≠
      (signClientAssertion clientId aud kid now2
        (signClientAssertion clientId aud kid now1 st).2).1.payload.jti := by
  refine ⟨rfl, rfl, rfl, rfl, rfl, by simp [signClientAssertion], ?_⟩
  exact uuidv4_succ_ne st

/-- C7: `buildNotificationBundle` returns a Bundle of type `history` with
exactly two entries; the first is a Parameters resource carrying a `status`
parameter with valueCode `active`, the second's `fullUrl` is derived from
the Encounter's own id (`Encounter/123` for id `123`, `Encounter/unknown`
when the id is absent). -/
theorem c7_notification_bundle (enc : Resource) (opts : BundleOptions) (nowIso u : String) :
    (buildNotificationBundle enc opts nowIso u).type = "history" ∧
    (buildNotificationBundle enc opts nowIso u).entry.length = 2 ∧
    (∃ pid params,
      (buildNotificationBundle enc opts nowIso u).entry.head? =
        some { fullUrl := "urn:uuid:" ++ u, resource := .parameters pid params } ∧
      ({ name := "status", valueCode := some "active" } : ParamField) ∈ params) ∧
    (buildNotificationBundle enc opts nowIso u).entry.getLast? =
      some { fullUrl := encounterFullUrl enc, resource := .encounter enc } ∧
    (enc.id = some "123" → encounterFullUrl enc = "Encounter/123") ∧
    (enc.id = none → encounterFullUrl enc = "Encounter/unknown") := by
  refine ⟨rfl, rfl, ⟨_, _, rfl, ?_⟩, rfl, ?_, ?_⟩
  · exact List.mem_cons_of_mem _ (List.mem_cons_of_mem _ (List.mem_cons_of_mem _
      (List.mem_cons_self _ _)))
  · intro h
    simp only [encounterFullUrl, h]
    decide
  · intro h
    simp only [encounterFullUrl, h]

/-- C7 witness: the theorem applied to an Encounter with id `123`, the
implications discharged. -/
theorem c7_witness :
    (buildNotificationBundle encC7 {} "now" "u").type = "history" ∧
    encounterFullUrl encC7 = "Encounter/123" :=
  ⟨(c7_notification_bundle encC7 {} "now" "u").1,
   (c7_notification_bundle encC7 {} "now" "u").2.2.2.2.1 rfl⟩

/-- C8: the launch flow yields exactly one action per resolved encounter, a
launch POST exactly when both an Encounter id and a Patient id are
resolvable (truthy), a skip otherwise; on one encounter with both ids and
one without it issues exactly one POST and one skip. -/
theorem c8_launch_flow :
    (∀ encounters : List Resource,
      (launchActions encounters).length = encounters.length ∧
      (launchActions encounters).countP LaunchAction.isPost =
        encounters.countP (fun e => truthy e.id && truthy (getPatientIdFromEncounter e))) ∧
    (∀ enc : Resource, (launchAction enc).isPost =
      (truthy enc.id && truthy (getPatientIdFromEncounter enc))) ∧
    launchActions [encC8a, encC8b] = [.post "1" "p1", .skip (some "2") none] := by
  refine ⟨fun encounters => ⟨by simp [launchActions], ?_⟩, launchAction_isPost, by decide⟩
  unfold launchActions
  rw [List.countP_map]
  apply List.countP_congr
  intro e _
  simp only [Function.comp_apply, launchAction_isPost]

/-- C10 counterexample: for a subject reference `Patient/a/b`,
`getPatientIdFromEncounter` returns `a`, not the substring after
`Patient/` (which is `a/b`), refuting the claim as stated. -/
theorem c10_counterexample :
    getPatientIdFromEncounter encC10slash = some "a" ∧
    (encC10slash.subjectRef.getD "").drop 8 = "a/b" ∧
    ("a" : String) ≠ "a/b" := by
  decide

/-- C10 (amended): `getPatientIdFromEncounter` returns the path segment
between `Patient/` and the next slash exactly when the subject reference
starts with `Patient/` (`Patient/56089` gives `56089`), and `null` for
every other input (absent subject, absolute URLs, urns); a falsy patient id
means the launch flow issues no launch POST for that encounter. -/
theorem c10_patient_ref_parsing :
    (∀ enc : Resource, (getPatientIdFromEncounter enc).isSome =
      jsStartsWith (enc.subjectRef.getD "") "Patient/") ∧
    (∀ enc : Resource, jsStartsWith (enc.subjectRef.getD "") "Patient/" = false →
      (launchAction enc).isPost = false) ∧
    getPatientIdFromEncounter { subjectRef := some "Patient/56089" } = some "56089" ∧
    getPatientIdFromEncounter encC10abs = none ∧
    getPatientIdFromEncounter encC10urn = none ∧
    getPatientIdFromEncounter ({} : Resource) = none := by
  refine ⟨?_, ?_, by decide, by decide, by decide, by decide⟩
  · intro enc
    unfold getPatientIdFromEncounter
    by_cases h : jsStartsWith (enc.subjectRef.getD "") "Patient/" <;> simp [h]
  · intro enc h
    have hnone : getPatientIdFromEncounter enc = none := by
      unfold getPatientIdFromEncounter
      simp [h]
    rw [launchAction_isPost, hnone]
    simp [truthy]

/-- C10 witness: the amended theorem applied to the urn-reference
encounter. -/
theorem c10_witness :
    (getPatientIdFromEncounter encC10urn).isSome =
      jsStartsWith (encC10urn.subjectRef.getD "") "Patient/" ∧
    (launchAction encC10urn).isPost = false :=
  ⟨c10_patient_ref_parsing.1 encC10urn,
   c10_patient_ref_parsing.2.1 encC10urn (by decide)⟩

/-- C3 counterexample: in `SOF_BACKEND` mode with both `TOKEN_URL` (base
field) and `KID` (mode field) missing, the thrown error lists only
`TOKEN_URL`, not the full set of missing required fields. -/
theorem c3_counterexample :
    getFhirTokenRequest cfgC3bad "ca" = .error (.missingEnv ["TOKEN_URL"]) ∧
    missingOf cfgC3bad.KID = true ∧
    ("KID" : String) ∉ ["TOKEN_URL"] :=
  ⟨rfl, rfl, by decide⟩

/-- C3 (amended): `getFhirTokenRequest` validates in two stages — the base
fields `TOKEN_URL`, `CLIENT_ID`, `FHIR_BASE` first, the mode-specific
fields second — and the configuration error it returns before any request
is built lists exactly the missing fields of the first stage that has any;
mode-specific fields missing at the same time as base fields are not
included. -/
theorem c3_staged_validation (cfg : Cfg) (ca : String) :
    (needCheck (baseFields cfg) ≠ [] →
      getFhirTokenRequest cfg ca = .error (.missingEnv (needCheck (baseFields cfg)))) ∧
    (needCheck (baseFields cfg) = [] → cfg.AUTH_MODE ∈ validModes →
      needCheck (modeFields cfg) ≠ [] →
      getFhirTokenRequest cfg ca = .error (.missingEnv (needCheck (modeFields cfg)))) := by
  constructor
  · intro hb
    simp only [getFhirTokenRequest]
    rw [if_pos hb]
  · intro hb hm hmf
    have hm9 : cfg.AUTH_MODE = "SOF_BACKEND" ∨ cfg.AUTH_MODE = "PRIVATE_KEY_JWT" ∨
        cfg.AUTH_MODE = "CLIENT_SECRET_BASIC" ∨ cfg.AUTH_MODE = "CLIENT_SECRET_POST" := by
      simpa [validModes] using hm
    rcases hm9 with h | h | h | h <;>
      (simp [modeFields, h] at hmf ⊢) <;>
      simp [getFhirTokenRequest, hb, h, hmf]

/-- C3 witness: the amended theorem applied to a configuration with
complete base fields but a missing client secret in `CLIENT_SECRET_POST`
mode. -/
theorem c3_witness :
    needCheck (baseFields cfgC3w) = [] ∧
    needCheck (modeFields cfgC3w) = ["CLIENT_SECRET"] ∧
    getFhirTokenRequest cfgC3w "ca" = .error (.missingEnv (needCheck (modeFields cfgC3w))) :=
  ⟨by decide, by decide,
   (c3_staged_validation cfgC3w "ca").2 (by decide) (by decide) (by decide)⟩

/-- C5: for each of the four auth modes with complete required
configuration, the built token request has exactly the mode-correct shape:
the Basic authorization header only in `CLIENT_SECRET_BASIC`; the
`client_assertion` and `client_assertion_type` form fields only in
`SOF_BACKEND` / `PRIVATE_KEY_JWT`; every mode sends
`grant_type=client_credentials` with a `scope` parameter; an `aud` form
parameter exactly when the audience-requirement flag is set, its value
defaulting to the token endpoint URL when no override is configured. -/
theorem c5_token_request_shape (cfg : Cfg) (ca : String)
    (hmode : cfg.AUTH_MODE ∈ validModes)
    (hbase : needCheck (baseFields cfg) = [])
    (hmodeF : needCheck (modeFields cfg) = [])
    (hscope : cfg.SCOPE ≠ "") :
    ∃ req, getFhirTokenRequest cfg ca = .ok req ∧
      (req.basicAuth.isSome = true ↔ cfg.AUTH_MODE = "CLIENT_SECRET_BASIC") ∧
      ((req.form.any (fun p => p.1 == "client_assertion")) = true ↔
        (cfg.AUTH_MODE = "SOF_BACKEND" ∨ cfg.AUTH_MODE = "PRIVATE_KEY_JWT")) ∧
      ((req.form.any (fun p => p.1 == "client_assertion_type")) = true ↔
        (cfg.AUTH_MODE = "SOF_BACKEND" ∨ cfg.AUTH_MODE = "PRIVATE_KEY_JWT")) ∧
      ((cfg.AUTH_MODE = "SOF_BACKEND" ∨ cfg.AUTH_MODE = "PRIVATE_KEY_JWT") →
        ("client_assertion", ca) ∈ req.form ∧
        ("client_assertion_type", "urn:ietf:params:oauth:client-assertion-type:jwt-bearer")
          ∈ req.form) ∧
      ("grant_type", "client_credentials") ∈ req.form ∧
      ("scope", cfg.SCOPE) ∈ req.form ∧
      ((req.form.any (fun p => p.1 == "aud")) = true ↔ cfg.REQUIRE_AUD = true) ∧
      (cfg.REQUIRE_AUD = true → ("aud", audValue cfg) ∈ req.form) ∧
      ((cfg.AUD = none ∨ cfg.AUD = some "") → audValue cfg = cfg.TOKEN_URL.getD "") := by
  have hbase9 := needCheck_nil_iff.mp hbase
  have ht : missingOf cfg.TOKEN_URL = false :=
    hbase9 ("TOKEN_URL", cfg.TOKEN_URL) (by simp [baseFields])
  have haud : audValue cfg ≠ "" := audValue_ne_of_token ht
  have hauddf : (cfg.AUD = none ∨ cfg.AUD = some "") → audValue cfg = cfg.TOKEN_URL.getD "" := by
    rintro (h | h) <;> simp [audValue, h]
  have hm9 : cfg.AUTH_MODE = "SOF_BACKEND" ∨ cfg.AUTH_MODE = "PRIVATE_KEY_JWT" ∨
      cfg.AUTH_MODE = "CLIENT_SECRET_BASIC" ∨ cfg.AUTH_MODE = "CLIENT_SECRET_POST" := by
    simpa [validModes] using hmode
  rcases hm9 with h | h | h | h <;>
    simp [modeFields, h] at hmodeF <;>
    by_cases hra : cfg.REQUIRE_AUD = true <;>
    refine ⟨_,
      by simp [getFhirTokenRequest, h, hbase, hmodeF, hscope, hra, haud]; try rfl,
      ?_, ?_, ?_, ?_, ?_, ?_, ?_, ?_, hauddf⟩ <;>
    simp [h, hscope, hra, haud]

/-- C5 witness: the theorem applied to the complete `SOF_BACKEND`
configuration. -/
theorem c5_witness :
    cfgC5full.AUTH_MODE ∈ validModes ∧
    needCheck (baseFields cfgC5full) = [] ∧
    needCheck (modeFields cfgC5full) = [] ∧
    cfgC5full.SCOPE ≠ "" ∧
    (∃ req, getFhirTokenRequest cfgC5full "ca" = .ok req ∧
      (req.basicAuth.isSome = true ↔ cfgC5full.AUTH_MODE = "CLIENT_SECRET_BASIC") ∧
      ((req.form.any (fun p => p.1 == "client_assertion")) = true ↔
        (cfgC5full.AUTH_MODE = "SOF_BACKEND" ∨ cfgC5full.AUTH_MODE = "PRIVATE_KEY_JWT")) ∧
      ((req.form.any (fun p => p.1 == "client_assertion_type")) = true ↔
        (cfgC5full.AUTH_MODE = "SOF_BACKEND" ∨ cfgC5full.AUTH_MODE = "PRIVATE_KEY_JWT")) ∧
      ((cfgC5full.AUTH_MODE = "SOF_BACKEND" ∨ cfgC5full.AUTH_MODE = "PRIVATE_KEY_JWT") →
        ("client_assertion", "ca") ∈ req.form ∧
        ("client_assertion_type", "urn:ietf:params:oauth:client-assertion-type:jwt-bearer")
          ∈ req.form) ∧
      ("grant_type", "client_credentials") ∈ req.form ∧
      ("scope", cfgC5full.SCOPE) ∈ req.form ∧
      ((req.form.any (fun p => p.1 == "aud")) = true ↔ cfgC5full.REQUIRE_AUD = true) ∧
      (cfgC5full.REQUIRE_AUD = true → ("aud", audValue cfgC5full) ∈ req.form) ∧
      ((cfgC5full.AUD = none ∨ cfgC5full.AUD = some "") →
        audValue cfgC5full = cfgC5full.TOKEN_URL.getD "")) :=
  ⟨by decide, by decide, by decide, by decide,
   c5_token_request_shape cfgC5full "ca" (by decide) (by decide) (by decide) (by decide)⟩

/-- C9: every element of a sequence returned by `fetchEncountersByDateRange`
is a resource whose resourceType is `Encounter` with a present, non-empty
id, and no two returned elements share an id. -/
theorem c9_date_range_invariants (server : String → Option Bundle) (fuel : Nat)
    (o : DateRangeOpts) (res : List Resource) (reqs : List String)
    (h : fetchEncountersByDateRange server fuel o = .ok (res, reqs)) :
    (∀ r ∈ res, r.resourceType = "Encounter" ∧ truthy r.id = true) ∧
    (res.map Resource.id).Nodup := by
  unfold fetchEncountersByDateRange at h
  cases hrun : pageLoopGen server harvestEncounters fuel (some (dateRangeUrl o)) ([] : EncMap) []
    with
  | error e => rw [hrun] at h; cases h
  | ok p =>
    rw [hrun] at h
    obtain ⟨m, reqs0⟩ := p
    simp only [Except.ok.injEq, Prod.mk.injEq] at h
    obtain ⟨h1, h2⟩ := h
    have hwf : EncMapWF m :=
      pageLoopGen_preserve (fun s b hs => EncMapWF.harvest hs) fuel _ _ _ _ _ hrun EncMapWF.nil
    rw [← h1]
    exact ⟨hwf.values_prop, hwf.values_ids_nodup⟩

/-- C9 witness: the theorem applied to a two-page run whose pages carry a
non-Encounter entry and a duplicated Encounter. -/
theorem c9_witness :
    fetchEncountersByDateRange serverC9 2 optsC9 =
      .ok ([encC9a, encC9b], [dateRangeUrl optsC9, "http://s9/page2"]) ∧
    ((∀ r ∈ [encC9a, encC9b], r.resourceType = "Encounter" ∧ truthy r.id = true) ∧
      (([encC9a, encC9b] : List Resource).map Resource.id).Nodup) :=
  ⟨rfl, c9_date_range_invariants serverC9 2 optsC9 [encC9a, encC9b]
    [dateRangeUrl optsC9, "http://s9/page2"] rfl⟩

/-- C4: over a server presenting N pages chained by `next` links (the last
page lacking one), `fetchEncountersByDateRange` with enough fuel requests
exactly the N page urls in order and returns the union of the Encounters of
all N pages: an id occurs in the result exactly when some page carried an
Encounter entry with that id. -/
theorem c4_pagination_exhaustion (server : String → Option Bundle) (o : DateRangeOpts)
    (urls : List String) (pages : List Bundle) (fuel : Nat)
    (hchain : Chain server (some (dateRangeUrl o)) urls pages)
    (hfuel : urls.length ≤ fuel) :
    ∃ res, fetchEncountersByDateRange server fuel o = .ok (res, urls) ∧
      urls.length = pages.length ∧
      ∀ id, ((res.any (fun r => r.id == some id)) = true ↔
        ∃ b ∈ pages, id ∈ bundleEncIds b) := by
  have hrun := pageLoopGen_chain harvestEncounters hchain fuel ([] : EncMap) [] hfuel
  have hwf : EncMapWF (pages.foldl harvestEncounters ([] : EncMap)) :=
    EncMapWF.foldl_pages EncMapWF.nil
  refine ⟨(pages.foldl harvestEncounters ([] : EncMap)).values, ?_, hchain.length_eq, ?_⟩
  · unfold fetchEncountersByDateRange
    rw [hrun]
    rfl
  · intro id
    rw [hwf.values_any_id id, hasKey_foldl_pages]
    simp [EncMap.hasKey]

/-- C4 witness: the theorem applied to a concrete two-page chain. -/
theorem c4_witness :
    Chain serverC4 (some (dateRangeUrl optsC4))
      [dateRangeUrl optsC4, "http://s4/page2"] [page1C4, page2C4] ∧
    (∃ res, fetchEncountersByDateRange serverC4 2 optsC4 =
        .ok (res, [dateRangeUrl optsC4, "http://s4/page2"]) ∧
      ([dateRangeUrl optsC4, "http://s4/page2"] : List String).length =
        ([page1C4, page2C4] : List Bundle).length ∧
      ∀ id, ((res.any (fun r => r.id == some id)) = true ↔
        ∃ b ∈ [page1C4, page2C4], id ∈ bundleEncIds b)) :=
  have hc : Chain serverC4 (some (dateRangeUrl optsC4))
      [dateRangeUrl optsC4, "http://s4/page2"] [page1C4, page2C4] :=
    Chain.cons rfl (Chain.cons rfl Chain.nil)
  ⟨hc, c4_pagination_exhaustion serverC4 optsC4 _ _ 2 hc (by decide)⟩

/-- C2 counterexample: in the GET strategy `fetchEncountersByConditionCodes`
a failing individual Encounter fetch (the oracle rejects `Encounter/1`)
aborts the whole resolution with an error instead of returning the results
resolved so far, refuting the claim for that strategy. -/
theorem c2_counterexample :
    fetchEncountersByConditionCodes serverC2 encSrvC2 2 optsC2 = .error .http ∧
    encSrvC2 "1" = none :=
  ⟨rfl, rfl⟩

/-- C2 (amended): only the POST strategy degrades gracefully: whenever its
search POSTs and pagination GETs succeed (with enough fuel), the resolution
returns a result for EVERY individual-Encounter oracle, however many
individual fetches fail — failed direct fetches are logged and skipped in
the first pass and silently skipped in the fallback pass; in the GET
strategy `fetchEncountersByConditionCodes` an individual fetch failure
instead propagates and aborts resolution. -/
theorem c2_post_fallback_graceful (post get : String → Option Bundle)
    (getEnc : String → Option Resource) (o : PostOpts) (fuel : Nat)
    (b0 fb0 : Bundle) (urls urls2 : List String) (pages pages2 : List Bundle)
    (hpost : post (buildQueryString (postForm o)) = some b0)
    (hchain : Chain get (nextUrl b0) urls pages)
    (hfuel : urls.length ≤ fuel)
    (hfb : post (buildQueryString (fallbackForm o)) = some fb0)
    (hchain2 : Chain get (nextUrl fb0) urls2 pages2)
    (hfuel2 : urls2.length ≤ fuel) :
    ∃ r, fetchEncountersByConditionCodesPost post get getEnc fuel o = .ok r := by
  have hrun1 : ∀ s : EncMap,
      pageLoopGen get harvestEncounters fuel (nextUrl b0) s [] =
        .ok (pages.foldl harvestEncounters s, [] ++ urls) :=
    fun s => pageLoopGen_chain harvestEncounters hchain fuel s [] hfuel
  have hrun2 : ∀ acc : EncMap × List String,
      pageLoopGen get (processBundleConditions getEnc) fuel (nextUrl fb0) acc [] =
        .ok (pages2.foldl (processBundleConditions getEnc) acc, [] ++ urls2) :=
    fun acc => pageLoopGen_chain (processBundleConditions getEnc) hchain2 fuel acc [] hfuel2
  simp only [fetchEncountersByConditionCodesPost, hpost, hrun1]
  split
  · simp only [hfb, hrun2]
    exact ⟨_, rfl⟩
  · exact ⟨_, rfl⟩

/-- C2 witness: the amended theorem applied to a run whose every individual
fetch fails (`encSrvC2w` always rejects): resolution still returns a
(here empty) result. -/
theorem c2_witness :
    postSrvC2w (buildQueryString (postForm optsC2w)) = some bundleC2w ∧
    encSrvC2w "7" = none ∧
    (∃ r, fetchEncountersByConditionCodesPost postSrvC2w pageSrvC2w encSrvC2w 0 optsC2w =
      .ok r) :=
  ⟨rfl, rfl,
   c2_post_fallback_graceful postSrvC2w pageSrvC2w encSrvC2w optsC2w 0 bundleC2w bundleC2w
     [] [] [] [] rfl Chain.nil (by decide) rfl Chain.nil (by decide)⟩

/-- C1: in `fetchEncountersByConditionCodesPost` the direct-fetch block runs
before the initial bundle is harvested, so the Encounter id `123` —
delivered by server-side inclusion in the very search response — is
nevertheless fetched again by a direct `Encounter/123` GET (the recorded
fetch trace is `["123"]`), contradicting the never-re-fetched claim; the
result still contains the id exactly once. -/
theorem c1_included_id_refetched :
    fetchEncountersByConditionCodesPost postSrvC1 pageSrvC1 getEncC1 0 optsC1 =
      .ok ([encC1], ["123"]) ∧
    ("123" : String) ∈ bundleEncIds bundleC1 ∧
    encC1.id = some "123" :=
  ⟨rfl, by decide, rfl⟩

/-- C6 witness: the theorem applied at concrete arguments; the second and
third conjuncts exhibit the 300-second validity window and the distinct
`jti` of two consecutive calls. -/
theorem c6_witness :
    (signClientAssertion "cid" "aud1" "kid1" 1000 0).1.payload.exp -
      (signClientAssertion "cid" "aud1" "kid1" 1000 0).1.payload.iat = 300 ∧
    (signClientAssertion "cid" "aud1" "kid1" 1000 0).1.payload.jti ≠
      (signClientAssertion "cid" "aud1" "kid1" 2000
        (signClientAssertion "cid" "aud1" "kid1" 1000 0).2).1.payload.jti :=
  ⟨(c6_client_assertion "cid" "aud1" "kid1" 1000 2000 0).2.2.2.2.2.1,
   (c6_client_assertion "cid" "aud1" "kid1" 1000 2000 0).2.2.2.2.2.2⟩

/-- C8 witness: the per-encounter action equation of the launch flow,
applied to the two-encounter scenario. -/
theorem c8_witness :
    (launchAction encC8a).isPost =
      (truthy encC8a.id && truthy (getPatientIdFromEncounter encC8a)) ∧
    (launchActions [encC8a, encC8b]).countP LaunchAction.isPost =
      ([encC8a, encC8b] : List Resource).countP
        (fun e => truthy e.id && truthy (getPatientIdFromEncounter e)) :=
  ⟨c8_launch_flow.2.1 encC8a, (c8_launch_flow.1 [encC8a, encC8b]).2⟩

theorem EncMapWF.setEnc {m : EncMap} {enc : Resource} (h : EncMapWF m)
    (hrt : enc.resourceType = "Encounter") (hid : truthy enc.id = true) :
    EncMapWF (m.set (enc.id.getD "") enc) := by
  obtain ⟨s, hs, hne⟩ : ∃ s, enc.id = some s ∧ s ≠ "" := by
    cases hri : enc.id with
    | none => rw [hri] at hid; simp [truthy] at hid
    | some s =>
      rw [hri] at hid
      simp [truthy] at hid
      exact ⟨s, rfl, hid⟩
  have hgd : enc.id.getD "" = s := by simp [hs]
  rw [hgd]
  exact h.set hrt (by rw [hs]) hne

theorem EncMapWF.directFetch {getEnc : String → Option Resource} :
    ∀ (refs : List String) (m : EncMap) (tr : List String), EncMapWF m →
      EncMapWF (directFetchRefs getEnc refs m tr).1 := by
  intro refs
  induction refs with
  | nil => intro m tr h; exact h
  | cons ref refs ih =>
    intro m tr h
    simp only [directFetchRefs]
    split
    · exact ih m tr h
    · split
      · exact ih m tr h
      · split
        · exact ih m _ h
        · split
          · rename_i hc
            exact ih _ _ (h.setEnc hc.1 hc.2)
          · exact ih m _ h

theorem EncMapWF.fetchByRef {getEnc : String → Option Resource}
    {acc : EncMap × List String} {ref : Option String} (h : EncMapWF acc.1) :
    EncMapWF (fetchEncounterByRef getEnc acc ref).1 := by
  cases ref with
  | none => exact h
  | some r =>
    simp only [fetchEncounterByRef]
    split
    · split
      · exact h
      · split
        · exact h
        · split
          · rename_i hc
            exact h.setEnc hc.1 hc.2
          · exact h
    · exact h

theorem EncMapWF.processBC {getEnc : String → Option Resource} {b : Bundle} :
    ∀ {acc : EncMap × List String}, EncMapWF acc.1 →
      EncMapWF (processBundleConditions getEnc acc b).1 := by
  unfold processBundleConditions
  induction b.entry with
  | nil => intro acc h; exact h
  | cons r l ih =>
    intro acc h
    simp only [List.foldl_cons]
    apply ih
    split
    · exact h.fetchByRef
    · exact h

theorem EncMapWF.firstPass {getEnc : String → Option Resource} {bundle : Bundle} :
    EncMapWF (postFirstPass getEnc bundle).1 := by
  unfold postFirstPass
  split
  · exact EncMapWF.directFetch _ _ _ EncMapWF.nil
  · exact EncMapWF.nil

/-- Whatever the oracles return, a successful run of the POST strategy
yields resources with pairwise distinct ids: every insertion keys the map by
the stored Encounter's own id (the dedup half of the deduplication claim,
which the re-fetch half of the run violates). -/
theorem c1_post_result_ids_nodup (post get : String → Option Bundle)
    (getEnc : String → Option Resource) (fuel : Nat) (o : PostOpts)
    (res : List Resource) (tr : List String)
    (h : fetchEncountersByConditionCodesPost post get getEnc fuel o = .ok (res, tr)) :
    (res.map Resource.id).Nodup := by
  simp only [fetchEncountersByConditionCodesPost] at h
  cases hp : post (buildQueryString (postForm o)) with
  | none => rw [hp] at h; cases h
  | some bundle =>
    simp only [hp] at h
    cases hrun : pageLoopGen get harvestEncounters fuel (nextUrl bundle)
        (harvestEncounters (postFirstPass getEnc bundle).1 bundle) [] with
    | error e => rw [hrun] at h; cases h
    | ok p =>
      obtain ⟨m3, tr3⟩ := p
      simp only [hrun] at h
      have hwf3 : EncMapWF m3 :=
        pageLoopGen_preserve (fun s b hs => EncMapWF.harvest hs) fuel _ _ _ _ _ hrun
          (EncMapWF.harvest EncMapWF.firstPass)
      split at h
      · cases hfb : post (buildQueryString (fallbackForm o)) with
        | none => rw [hfb] at h; cases h
        | some fb =>
          simp only [hfb] at h
          cases hrun2 : pageLoopGen get (processBundleConditions getEnc) fuel (nextUrl fb)
              (processBundleConditions getEnc (m3, (postFirstPass getEnc bundle).2) fb) [] with
          | error e => rw [hrun2] at h; cases h
          | ok q =>
            obtain ⟨acc4, tr4⟩ := q
            simp only [hrun2, Except.ok.injEq, Prod.mk.injEq] at h
            have hwf4 : EncMapWF acc4.1 :=
              pageLoopGen_preserve (P := fun acc : EncMap × List String => EncMapWF acc.1)
                (fun s b hs => EncMapWF.processBC hs) fuel _ _ _ _ _ hrun2
                (EncMapWF.processBC hwf3)
            rw [← h.1]
            exact hwf4.values_ids_nodup
      · simp only [Except.ok.injEq, Prod.mk.injEq] at h
        rw [← h.1]
        exact hwf3.values_ids_nodup
